import Mathlib

/-!
Verification development for the v1strategy scanner (`streamlit_app.py`).

Shallow embedding conventions:
* IEEE floats are idealized as exact rationals (`ℚ`).
* NaN is modelled as `none` in `Option ℚ`; every comparison against NaN is
  false, matching NumPy comparison semantics.
* `pd.Series(x).rolling(p, min_periods=p)` aggregations are `none` until the
  window holds `p` defined values.
* `ewm(alpha, adjust=False)` is the recursion `y 0 = x 0`,
  `y (i+1) = (1-alpha) * y i + alpha * x (i+1)`; `_ema(span=p)` uses
  `alpha = 2/(p+1)`.
* Bollinger band comparisons such as `x < basis - mult * sqrt var` are encoded
  in the equivalent squared form `basis - x > 0 ∧ (basis - x)^2 > mult^2 * var`
  (equivalent over ℝ whenever `mult ≥ 0`, which holds for every call site:
  `BB_MULT = 1/2`), so that everything stays inside ℚ and is decidable.
* Async fetch calls are modelled by passing the would-be fetch result (or a
  per-attempt response oracle) as an explicit argument.
-/

set_option maxRecDepth 100000

namespace V1

attribute [local semireducible] Rat.add Rat.mul Rat.sub Rat.inv

/-- Comparison with a possibly-NaN value: `x > o`, false when `o` is NaN. -/
def cmpGT (x : ℚ) (o : Option ℚ) : Bool :=
  match o with
  | some y => x > y
  | none => false

/-- Comparison with a possibly-NaN value: `x < o`, false when `o` is NaN. -/
def cmpLT (x : ℚ) (o : Option ℚ) : Bool :=
  match o with
  | some y => x < y
  | none => false

/-- Comparison with a possibly-NaN value: `x >= o`, false when `o` is NaN. -/
def cmpGE (x : ℚ) (o : Option ℚ) : Bool :=
  match o with
  | some y => x ≥ y
  | none => false

/-- Comparison with a possibly-NaN value: `x <= o`, false when `o` is NaN. -/
def cmpLE (x : ℚ) (o : Option ℚ) : Bool :=
  match o with
  | some y => x ≤ y
  | none => false

/-- Comparison of two possibly-NaN values, false when either is NaN. -/
def cmpGT2 (a b : Option ℚ) : Bool :=
  match a, b with
  | some x, some y => x > y
  | _, _ => false

/-- Trailing window `a[i-p+1 .. i]` of a series given as an indexing function. -/
def winEnd (f : ℕ → ℚ) (p i : ℕ) : List ℚ :=
  (List.range p).map fun k => f (i + 1 - p + k)

/-- `_sma(a, p)` at index `i`: `pd.Series(a).rolling(p, min_periods=p).mean()`.
`n` is the series length. -/
def smaAt (n : ℕ) (f : ℕ → ℚ) (p i : ℕ) : Option ℚ :=
  if p ≤ i + 1 ∧ i < n then some ((winEnd f p i).sum / p) else none

/-- Rolling aggregation of a possibly-NaN series: defined only when the whole
window of `p` values is defined (pandas `min_periods = p` counts non-NaN
observations, so one NaN in the window yields NaN). -/
def smaAtO (n : ℕ) (f : ℕ → Option ℚ) (p i : ℕ) : Option ℚ :=
  if p ≤ i + 1 ∧ i < n then
    let w := (List.range p).map fun k => f (i + 1 - p + k)
    if w.all Option.isSome then some ((w.map (fun o => o.getD 0)).sum / p)
    else none
  else none

/-- Exponential smoothing `ewm(alpha, adjust=False).mean()` value at index `i`. -/
def ewmAux (alpha : ℚ) (f : ℕ → ℚ) : ℕ → ℚ
  | 0 => f 0
  | i + 1 => (1 - alpha) * ewmAux alpha f i + alpha * f (i + 1)

/-- `_rma(a, p)`: all-NaN when the series is shorter than `p`, otherwise
Wilder smoothing `ewm(alpha = 1/p, adjust=False)` (defined from index 0). -/
def rmaAt (n : ℕ) (f : ℕ → ℚ) (p i : ℕ) : Option ℚ :=
  if n < p ∨ n ≤ i then none else some (ewmAux (mkRat 1 p) f i)

/-- `_ema(a, p)`: `ewm(span = p, adjust = False)`, `alpha = 2/(p+1)`. -/
def emaAt (f : ℕ → ℚ) (p i : ℕ) : ℚ :=
  ewmAux (mkRat 2 (p + 1)) f i

/-- Rolling max `rolling(p, min_periods=p).max()` at index `i`. -/
def rollMaxAt (n : ℕ) (f : ℕ → ℚ) (p i : ℕ) : Option ℚ :=
  if p ≤ i + 1 ∧ i < n then some ((winEnd f p i).foldr max (f (i + 1 - p))) else none

/-- Rolling min `rolling(p, min_periods=p).min()` at index `i`. -/
def rollMinAt (n : ℕ) (f : ℕ → ℚ) (p i : ℕ) : Option ℚ :=
  if p ≤ i + 1 ∧ i < n then some ((winEnd f p i).foldr min (f (i + 1 - p))) else none

/-- Rolling sum `rolling(p, min_periods=p).sum()` at index `i`. -/
def rollSumAt (n : ℕ) (f : ℕ → ℚ) (p i : ℕ) : Option ℚ :=
  if p ≤ i + 1 ∧ i < n then some ((winEnd f p i).sum) else none

/-- Rolling population variance (`std(ddof=0)` squared) at index `i`. -/
def rollVarAt (n : ℕ) (f : ℕ → ℚ) (p i : ℕ) : Option ℚ :=
  if p ≤ i + 1 ∧ i < n then
    let w := winEnd f p i
    let mu := w.sum / p
    some ((w.map fun x => (x - mu) ^ 2).sum / p)
  else none

/-- The float literal `1e-9` used as an epsilon guard in the source. -/
def eps : ℚ := mkRat 1 1000000000

/-- Element access for candle columns; indices are always in range at use
sites, the default mirrors nothing observable. -/
def colAt (a : List ℚ) (i : ℕ) : ℚ := a.getD i 0

/-- `np.diff(c, prepend=c[0])`: first difference with a leading zero. -/
def diffAt (c : List ℚ) (i : ℕ) : ℚ :=
  match i with
  | 0 => 0
  | j + 1 => colAt c (j + 1) - colAt c j

/-- Gain series `np.where(d > 0, d, 0)` of `calc_rsi`. -/
def rsiGain (c : List ℚ) (i : ℕ) : ℚ :=
  if diffAt c i > 0 then diffAt c i else 0

/-- Loss series `np.where(d < 0, -d, 0)` of `calc_rsi`. -/
def rsiLoss (c : List ℚ) (i : ℕ) : ℚ :=
  if diffAt c i < 0 then -diffAt c i else 0

/-- Smoothed loss after the zero guard `np.where(l == 0, 1e-9, l)`. -/
def rsiLossGuard (c : List ℚ) (p i : ℕ) : Option ℚ :=
  (rmaAt c.length (rsiLoss c) p i).map fun x => if x = 0 then eps else x

/-- `calc_rsi(c, p)` value at index `i`:
`100 - 100 / (1 + g/l)` with Wilder-smoothed gains and guarded losses. -/
def calc_rsi (c : List ℚ) (p i : ℕ) : Option ℚ :=
  match rmaAt c.length (rsiGain c) p i, rsiLossGuard c p i with
  | some g, some l => some (100 - 100 / (1 + g / l))
  | _, _ => none

/-- `f_swing` rolling resistance: `pd.Series(h).rolling(no, min_periods=no).max()`. -/
def swingRes (h : List ℚ) (no i : ℕ) : Option ℚ :=
  rollMaxAt h.length (colAt h) no i

/-- `f_swing` rolling support: `pd.Series(l).rolling(no, min_periods=no).min()`. -/
def swingSup (l : List ℚ) (no i : ℕ) : Option ℚ :=
  rollMinAt l.length (colAt l) no i

/-- `above_res[no:] = np.where(c[no:] > res[no-1:-1], 1.0, 0.0)` (0 before `no`). -/
def swingAboveRes (h c : List ℚ) (no i : ℕ) : Int :=
  if no ≤ i ∧ cmpGT (colAt c i) (swingRes h no (i - 1)) then 1 else 0

/-- `below_sup[no:] = np.where(c[no:] < sup[no-1:-1], -1.0, 0.0)` (0 before `no`). -/
def swingBelowSup (l c : List ℚ) (no i : ℕ) : Int :=
  if no ≤ i ∧ cmpLT (colAt c i) (swingSup l no (i - 1)) then -1 else 0

/-- `avd = np.where(above_res != 0, above_res, below_sup)`. -/
def swingAvd (h l c : List ℚ) (no i : ℕ) : Int :=
  if swingAboveRes h c no i ≠ 0 then swingAboveRes h c no i else swingBelowSup l c no i

/-- Forward fill of the last nonzero `avd` value (the
`np.maximum.accumulate` index trick; index 0 is the default). -/
def swingAvn (h l c : List ℚ) (no : ℕ) : ℕ → Int
  | 0 => swingAvd h l c no 0
  | i + 1 =>
    if swingAvd h l c no (i + 1) ≠ 0 then swingAvd h l c no (i + 1)
    else swingAvn h l c no i

/-- Direction series of `f_swing` (second component of its result), after
`avn[:no] = 0`. -/
def f_swing_dir (h l c : List ℚ) (no i : ℕ) : Int :=
  if i < no then 0 else swingAvn h l c no i

/-- Trailing-stop series of `f_swing`: `tsl = np.where(avn == 1, sup, res)`. -/
def f_swing_tsl (h l c : List ℚ) (no i : ℕ) : Option ℚ :=
  if f_swing_dir h l c no i = 1 then swingSup l no i else swingRes h no i

/-- Comparison of a possibly-NaN value against a number: `o > q`. -/
def cmpOGT (o : Option ℚ) (q : ℚ) : Bool :=
  match o with
  | some x => x > q
  | none => false

/-- Comparison of a possibly-NaN value against a number: `o < q`. -/
def cmpOLT (o : Option ℚ) (q : ℚ) : Bool :=
  match o with
  | some x => x < q
  | none => false

/-- Comparison of two possibly-NaN values, `a < b`, false when either is NaN. -/
def cmpLT2 (a b : Option ℚ) : Bool :=
  match a, b with
  | some x, some y => x < y
  | _, _ => false

/-- HLC3 source series `s = (h + l + c) / 3` of `calc_wt2`. -/
def wtS (h l c : List ℚ) (i : ℕ) : ℚ := (colAt h i + colAt l i + colAt c i) / 3

/-- `e1 = _ema(s, PRESSURE_N1)` with `PRESSURE_N1 = 9`. -/
def wtE1 (h l c : List ℚ) (i : ℕ) : ℚ := emaAt (wtS h l c) 9 i

/-- `d = s - e1`. -/
def wtD (h l c : List ℚ) (i : ℕ) : ℚ := wtS h l c i - wtE1 h l c i

/-- `den = _ema(np.abs(d), PRESSURE_N1)` with the `den == 0 → 1e-9` guard. -/
def wtDen (h l c : List ℚ) (i : ℕ) : ℚ :=
  let d := emaAt (fun j => |wtD h l c j|) 9 i
  if d = 0 then eps else d

/-- `tci = _ema(d / (0.025 * den), PRESSURE_N2) + 50` with `PRESSURE_N2 = 6`
(`0.025 = 1/40`). -/
def wtTci (h l c : List ℚ) (i : ℕ) : ℚ :=
  emaAt (fun j => wtD h l c j / (mkRat 1 40 * wtDen h l c j)) 6 i + 50

/-- `chg = np.diff(s, prepend=s[0])`. -/
def wtChg (h l c : List ℚ) (i : ℕ) : ℚ :=
  match i with
  | 0 => 0
  | j + 1 => wtS h l c (j + 1) - wtS h l c j

/-- `vs = v * s`. -/
def wtVs (h l c v : List ℚ) (i : ℕ) : ℚ := colAt v i * wtS h l c i

/-- `num = vs.where(chg_up, 0).rolling(PRESSURE_N3, min_periods=PRESSURE_N3).sum()`. -/
def wtNum (h l c v : List ℚ) (i : ℕ) : Option ℚ :=
  rollSumAt c.length (fun j => if wtChg h l c j > 0 then wtVs h l c v j else 0) 3 i

/-- `dn = vs.where(~chg_up, 0).rolling(...).sum()` with the `dn == 0 → 1` guard. -/
def wtDnGuard (h l c v : List ℚ) (i : ℕ) : Option ℚ :=
  (rollSumAt c.length (fun j => if wtChg h l c j > 0 then 0 else wtVs h l c v j) 3 i).map
    fun x => if x = 0 then 1 else x

/-- Money-flow component `mf = 100 - 100 / (1 + num / dn)`. -/
def wtMf (h l c v : List ℚ) (i : ℕ) : Option ℚ :=
  match wtNum h l c v i, wtDnGuard h l c v i with
  | some nu, some dn => some (100 - 100 / (1 + nu / dn))
  | _, _ => none

/-- The HLC3 series as a list, fed to `calc_rsi(s, PRESSURE_N3)`. -/
def wtSList (h l c : List ℚ) : List ℚ := (List.range c.length).map (wtS h l c)

/-- Composite `(tci + mf + rsi) / 3` before the final smoothing. -/
def wtComp (h l c v : List ℚ) (i : ℕ) : Option ℚ :=
  match wtMf h l c v i, calc_rsi (wtSList h l c) 3 i with
  | some m, some r => some ((wtTci h l c i + m + r) / 3)
  | _, _ => none

/-- `calc_wt2 = _sma((tci + mf + rsi)/3, 6)`: the composite pressure oscillator. -/
def calc_wt2 (h l c v : List ℚ) (i : ℕ) : Option ℚ :=
  smaAtO c.length (wtComp h l c v) 6 i

/-- Volume filter `vf = _sma(v, VOL_FAST_LEN) > _sma(v, VOL_SLOW_LEN)` (5 vs 20). -/
def volFilter (v : List ℚ) (i : ℕ) : Bool :=
  cmpGT2 (smaAt v.length (colAt v) 5 i) (smaAt v.length (colAt v) 20 i)

/-- Primary swing direction `dir_main` (`f_swing` at `SWING_UTAMA = 50`). -/
def sigDirMain (h l c : List ℚ) (i : ℕ) : Int := f_swing_dir h l c 50 i

/-- Primary trailing level `tsm`. -/
def sigTsm (h l c : List ℚ) (i : ℕ) : Option ℚ := f_swing_tsl h l c 50 i

/-- Secondary trailing level `tsa` (`f_swing` at `SWING_ALT = 5`). -/
def sigTsa (h l c : List ℚ) (i : ℕ) : Option ℚ := f_swing_tsl h l c 5 i

/-- `above = c > tsm`. -/
def sigAbove (h l c : List ℚ) (i : ℕ) : Bool := cmpGT (colAt c i) (sigTsm h l c i)

/-- `below = c < tsm`. -/
def sigBelow (h l c : List ℚ) (i : ℕ) : Bool := cmpLT (colAt c i) (sigTsm h l c i)

/-- `raw_buy_p = (wt2 < 20) & above`. -/
def rawBuyP (h l c v : List ℚ) (i : ℕ) : Bool :=
  cmpOLT (calc_wt2 h l c v i) 20 ∧ sigAbove h l c i

/-- `raw_sell_p = (wt2 > 80) & below`. -/
def rawSellP (h l c v : List ℚ) (i : ℕ) : Bool :=
  cmpOGT (calc_wt2 h l c v i) 80 ∧ sigBelow h l c i

/-- Rising edge `buy_pressure[1:] = raw[1:] & ~raw[:-1]` (false at index 0). -/
def buyPressure (h l c v : List ℚ) (i : ℕ) : Bool :=
  match i with
  | 0 => false
  | j + 1 => rawBuyP h l c v (j + 1) ∧ ¬rawBuyP h l c v j

/-- Rising edge of `raw_sell_p` (false at index 0). -/
def sellPressure (h l c v : List ℚ) (i : ℕ) : Bool :=
  match i with
  | 0 => false
  | j + 1 => rawSellP h l c v (j + 1) ∧ ¬rawSellP h l c v j

/-- Cross-up `cup[1:] = (c[1:] > tsa[1:]) & (c[:-1] <= tsa[:-1])`. -/
def sigCup (h l c : List ℚ) (i : ℕ) : Bool :=
  match i with
  | 0 => false
  | j + 1 => cmpGT (colAt c (j + 1)) (sigTsa h l c (j + 1)) ∧
      cmpLE (colAt c j) (sigTsa h l c j)

/-- Cross-down `cdn[1:] = (c[1:] < tsa[1:]) & (c[:-1] >= tsa[:-1])`. -/
def sigCdn (h l c : List ℚ) (i : ℕ) : Bool :=
  match i with
  | 0 => false
  | j + 1 => cmpLT (colAt c (j + 1)) (sigTsa h l c (j + 1)) ∧
      cmpGE (colAt c j) (sigTsa h l c j)

/-- `np.searchsorted(a, v)` with `side='left'` on an ascending list: the number
of leading elements strictly below `v`. -/
def searchsortedLeft (ts : List ℤ) (v : ℤ) : ℕ :=
  (ts.takeWhile fun t => t < v).length

/-- Signal window start: `searchsorted(ts[:end], from_ts)` when `from_ts > 0`,
else `max(0, end - LOOKBACK_SIG)` with `LOOKBACK_SIG = 100`. -/
def sigWindowStart (ts : List ℤ) (endIdx : ℕ) (fromTs : ℤ) : ℕ :=
  if fromTs > 0 then searchsortedLeft (ts.take endIdx) fromTs else endIdx - 100

/-- State of the single-direction Final-Signal scan loop: the pending-signal
pointer `last_p_bar` and the collected signal timestamps. -/
structure SigState where
  lastP : Int
  sigs : List ℤ
deriving DecidableEq

/-- One iteration of the single-direction Final-Signal loop. `td` is the trade
direction (`-1` for the sell branch, `1` for the buy branch); `press`, `cross`
and `side` are the direction's pressure edge, secondary-swing crossover and
price-side series. The two branches of the source are textually parallel under
this parameterization. -/
def sigStep (td : Int) (dirMain : ℕ → Int) (press cross vfilt side : ℕ → Bool)
    (wstart : ℕ) (ts : List ℤ) (st : SigState) (i : ℕ) : SigState :=
  let lp0 : Int := if dirMain i = td ∧ dirMain (i - 1) ≠ td then -1 else st.lastP
  let lp1 : Int := if press i then (i : Int) else lp0
  if wstart ≤ i ∧ 0 ≤ lp1 ∧ cross i ∧ vfilt i ∧ side i ∧ dirMain i = td then
    ⟨-1, st.sigs ++ [ts.getD i 0]⟩
  else if cross i ∧ vfilt i ∧ side i ∧ 0 ≤ lp1 then
    ⟨-1, st.sigs⟩
  else
    ⟨lp1, st.sigs⟩

/-- The Final-Signal loop run over bars `1 .. k` (the source iterates
`for i in range(1, end)`; `k = end - 1` gives the full run). -/
def sigRunTo (td : Int) (dirMain : ℕ → Int) (press cross vfilt side : ℕ → Bool)
    (wstart : ℕ) (ts : List ℤ) (k : ℕ) : SigState :=
  ((List.range k).map (· + 1)).foldl (sigStep td dirMain press cross vfilt side wstart ts)
    ⟨-1, []⟩

/-- Pointer value right after the trend-flip reset step of bar `i` (the first
statement of the loop body), before the pressure-arm step. -/
def sigPointerAfterFlipReset (td : Int) (dirMain : ℕ → Int)
    (press cross vfilt side : ℕ → Bool) (wstart : ℕ) (ts : List ℤ) (i : ℕ) : Int :=
  if dirMain i = td ∧ dirMain (i - 1) ≠ td then -1
  else (sigRunTo td dirMain press cross vfilt side wstart ts (i - 1)).lastP

/-- Pointer value consumed by the emission condition of bar `i` (after both the
trend-flip reset and the pressure arm of that bar). -/
def sigPointerAtEval (td : Int) (dirMain : ℕ → Int)
    (press cross vfilt side : ℕ → Bool) (wstart : ℕ) (ts : List ℤ) (i : ℕ) : Int :=
  if press i then (i : Int)
  else sigPointerAfterFlipReset td dirMain press cross vfilt side wstart ts i

/-- `signals_tf(df, from_ts, want_sell)` in single-direction scan mode:
`(found, list of signal timestamps)`. -/
def signals_tf (ts : List ℤ) (h l c v : List ℚ) (fromTs : ℤ) (want_sell : Bool) :
    Bool × List ℤ :=
  let n := c.length
  if n < 60 then (false, [])   -- SWING_UTAMA + 10
  else
    let endIdx := n - 1
    let ws := sigWindowStart ts endIdx fromTs
    let st :=
      if want_sell then
        sigRunTo (-1) (sigDirMain h l c) (sellPressure h l c v) (sigCdn h l c)
          (volFilter v) (sigBelow h l c) ws ts (endIdx - 1)
      else
        sigRunTo 1 (sigDirMain h l c) (buyPressure h l c v) (sigCup h l c)
          (volFilter v) (sigAbove h l c) ws ts (endIdx - 1)
    (decide (st.sigs ≠ []), st.sigs)

/-- State of the Bollinger-continuation machine: `rule1_met`, `band_broken`,
`armed`. -/
structure BBState where
  rule1 : Bool
  broken : Bool
  armed : Bool
deriving DecidableEq, Fintype

/-- Per-bar condition values of the Bollinger-continuation machine. `valid` is
false on NaN-basis bars (which both implementations skip); `ext` is the band
extension (`rule1` trigger), `reset` the opposite-band reset, `brk` the
beyond-band close, `retest` the re-entry of the band, `cross` the basis cross. -/
structure BBCond where
  valid : Bool
  ext : Bool
  reset : Bool
  brk : Bool
  retest : Bool
  cross : Bool
deriving DecidableEq, Fintype

/-- Bollinger basis `_sma(c, length)`. -/
def bbBasis (c : List ℚ) (length i : ℕ) : Option ℚ := smaAt c.length (colAt c) length i

/-- Squared rolling deviation: `rolling(length).std(ddof=0) ^ 2`. -/
def bbVar (c : List ℚ) (length i : ℕ) : Option ℚ := rollVarAt c.length (colAt c) length i

/-- `x < basis - mult * std` in squared form (equivalent for `mult ≥ 0`). -/
def belowLower (x b v m : ℚ) : Bool := decide (b - x > 0 ∧ (b - x) ^ 2 > m ^ 2 * v)

/-- `x > basis + mult * std` in squared form (equivalent for `mult ≥ 0`). -/
def aboveUpper (x b v m : ℚ) : Bool := decide (x - b > 0 ∧ (x - b) ^ 2 > m ^ 2 * v)

/-- The five band conditions of bar `i` for the requested direction. For the
sell side: `ext = h < lower`, `reset = l > upper`, `brk = c < lower`,
`retest = h ≥ lower`, `cross = c < basis`; the buy side is the mirror image.
Both the vectorized path and the loop fallback read exactly these conditions. -/
def bbCondAt (c h l : List ℚ) (want_sell : Bool) (length : ℕ) (m : ℚ) (i : ℕ) : BBCond :=
  match bbBasis c length i, bbVar c length i with
  | some b, some v =>
    if want_sell then
      ⟨true, belowLower (colAt h i) b v m, aboveUpper (colAt l i) b v m,
        belowLower (colAt c i) b v m, !belowLower (colAt h i) b v m,
        decide (colAt c i < b)⟩
    else
      ⟨true, aboveUpper (colAt l i) b v m, belowLower (colAt h i) b v m,
        aboveUpper (colAt c i) b v m, !aboveUpper (colAt l i) b v m,
        decide (colAt c i > b)⟩
  | _, _ => ⟨false, false, false, false, false, false⟩

/-- One bar of `_calc_bb_loop`: extension is checked before the reset, and the
beyond-band close re-enters `band_broken` (dropping `armed`) even while armed. -/
def loopStep (st : BBState) (cond : BBCond) : BBState × Bool :=
  if !cond.valid then (st, false)
  else
    let r1 := if cond.ext then true else st.rule1
    let s1 : Bool × Bool × Bool :=
      if cond.reset then (false, false, false) else (r1, st.broken, st.armed)
    let s2 : Bool × Bool :=
      if s1.1 ∧ cond.brk then (true, false) else (s1.2.1, s1.2.2)
    let ar := if s2.1 ∧ cond.retest then true else s2.2
    if ar ∧ cond.cross then (⟨s1.1, false, false⟩, true)
    else (⟨s1.1, s2.1, ar⟩, false)

/-- One bar of the vectorized path of `calc_bb_continuation`: the reset is
checked before the extension, and the beyond-band close enters `band_broken`
only when not armed (`not ar` guard). -/
def genStep (st : BBState) (cond : BBCond) : BBState × Bool :=
  if !cond.valid then (st, false)
  else
    let s1 : Bool × Bool × Bool :=
      if cond.reset then (false, false, false) else (st.rule1, st.broken, st.armed)
    let r1 := if cond.ext then true else s1.1
    let s2 : Bool × Bool :=
      if r1 ∧ cond.brk ∧ ¬s1.2.2 then (true, false) else (s1.2.1, s1.2.2)
    let ar := if s2.1 ∧ cond.retest then true else s2.2
    if ar ∧ cond.cross then (⟨r1, false, false⟩, true)
    else (⟨r1, s2.1, ar⟩, false)

/-- Run one of the two machines over bars `0 .. k-1`, returning the final state
and the emission flags in bar order. -/
def bbRunAux (step : BBState → BBCond → BBState × Bool) (conds : ℕ → BBCond) :
    ℕ → BBState × List Bool
  | 0 => (⟨false, false, false⟩, [])
  | k + 1 =>
    let p := bbRunAux step conds k
    let q := step p.1 (conds k)
    (q.1, p.2 ++ [q.2])

/-- `_calc_bb_loop`: the loop fallback emission series over the whole array. -/
def calc_bb_loop (c h l : List ℚ) (want_sell : Bool) (length : ℕ) (m : ℚ) : List Bool :=
  (bbRunAux loopStep (bbCondAt c h l want_sell length m) c.length).2

/-- The vectorized (general) path of `calc_bb_continuation`. -/
def calc_bb_gen (c h l : List ℚ) (want_sell : Bool) (length : ℕ) (m : ℚ) : List Bool :=
  (bbRunAux genStep (bbCondAt c h l want_sell length m) c.length).2

/-- `calc_bb_continuation(c, h, l, want_sell, length, mult)`: dispatches to the
loop fallback when `n < 2 * length`, else to the vectorized path. -/
def calc_bb_continuation (c h l : List ℚ) (want_sell : Bool) (length : ℕ) (m : ℚ) :
    List Bool :=
  if c.length < 2 * length then calc_bb_loop c h l want_sell length m
  else calc_bb_gen c h l want_sell length m

/-- Machine state of the vectorized path after processing bars `0 .. i`. -/
def bbGenStateAfter (c h l : List ℚ) (want_sell : Bool) (length : ℕ) (m : ℚ) (i : ℕ) :
    BBState :=
  (bbRunAux genStep (bbCondAt c h l want_sell length m) (i + 1)).1

/-- Structural event tags of `calc_bos_choch`. -/
inductive EType where
  | bullBos
  | bullChoch
  | bearBos
  | bearChoch
deriving DecidableEq, Fintype

/-- Side of a structural event: `1` bullish, `-1` bearish. -/
def sideOf : EType → Int
  | .bullBos => 1
  | .bullChoch => 1
  | .bearBos => -1
  | .bearChoch => -1

/-- Whether an event is a reversal (ChoCh) tag. -/
def isReversal : EType → Bool
  | .bullChoch => true
  | .bearChoch => true
  | _ => false

/-- Loop state of `calc_bos_choch`. -/
structure BCState where
  lastHigh : Option ℚ
  highBroken : Bool
  lastLow : Option ℚ
  lowBroken : Bool
  breakType : Int
  events : List (ℤ × EType)

/-- Python slice `a[s:e]`. -/
def pySlice (a : List ℚ) (s e : ℕ) : List ℚ := (a.take e).drop s

/-- Pivot-confirmation part of the `calc_bos_choch` loop body at bar `i`:
`mid = i - right` becomes the confirmed high (low) when `h[mid]` (`l[mid]`)
beats every high (low) `left` bars to its left and every one up to bar `i`;
empty slices compare as `-inf` (`inf`), hence `all` over an empty list. -/
def bcPivot (h l : List ℚ) (left right : ℕ) (st : BCState) (i : ℕ) : BCState :=
  let mid := i - right
  if left + right ≤ i then
    let pivotHigh := (pySlice h (mid - left) mid).all (fun x => colAt h mid > x) ∧
      (pySlice h (mid + 1) (i + 1)).all fun x => colAt h mid > x
    let pivotLow := (pySlice l (mid - left) mid).all (fun x => colAt l mid < x) ∧
      (pySlice l (mid + 1) (i + 1)).all fun x => colAt l mid < x
    let st1 :=
      if pivotHigh then
        { st with
          lastHigh := some (colAt h mid)
          highBroken := false }
      else st
    if pivotLow then
      { st1 with
        lastLow := some (colAt l mid)
        lowBroken := false }
    else st1
  else st

/-- Bullish-break part of the loop body: a close above the unbroken confirmed
high emits a bullish event, classified a reversal exactly when the previously
emitted side was bearish. -/
def bcBreakHigh (ts : List ℤ) (c : List ℚ) (st : BCState) (i : ℕ) : BCState :=
  if st.lastHigh.isSome ∧ ¬st.highBroken ∧ cmpGT (colAt c i) st.lastHigh then
    { st with
      highBroken := true
      breakType := 1
      events := st.events ++
        [(ts.getD i 0, if st.breakType = -1 then EType.bullChoch else EType.bullBos)] }
  else st

/-- Bearish-break part of the loop body, evaluated after the bullish part. -/
def bcBreakLow (ts : List ℤ) (c : List ℚ) (st : BCState) (i : ℕ) : BCState :=
  if st.lastLow.isSome ∧ ¬st.lowBroken ∧ cmpLT (colAt c i) st.lastLow then
    { st with
      lowBroken := true
      breakType := -1
      events := st.events ++
        [(ts.getD i 0, if st.breakType = 1 then EType.bearChoch else EType.bearBos)] }
  else st

/-- One bar of the `calc_bos_choch` loop: pivot confirmation, then the bullish
break check, then the bearish break check, in source order. -/
def bcStep (ts : List ℤ) (h l c : List ℚ) (left right : ℕ) (st : BCState) (i : ℕ) :
    BCState :=
  bcBreakLow ts c (bcBreakHigh ts c (bcPivot h l left right st i) i) i

/-- Full `calc_bos_choch` loop state after all bars. -/
def bcRun (ts : List ℤ) (h l c : List ℚ) (left right : ℕ) : BCState :=
  (List.range c.length).foldl (bcStep ts h l c left right)
    ⟨none, true, none, true, 0, []⟩

/-- Stable insertion of an event into a list sorted ascending by timestamp:
the new element goes before the first strictly later element, after equal
timestamps (preserving original order of equals). -/
def bcInsert (x : ℤ × EType) : List (ℤ × EType) → List (ℤ × EType)
  | [] => [x]
  | y :: ys => if y.1 < x.1 then y :: bcInsert x ys else x :: y :: ys

/-- Stable ascending sort by timestamp, modelling Python's stable `sorted`
with `key = ts`. -/
def bcSort : List (ℤ × EType) → List (ℤ × EType)
  | [] => []
  | x :: xs => bcInsert x (bcSort xs)

/-- `calc_bos_choch(df, left, right)`: the emitted events, sorted ascending by
timestamp (`sorted(events, key=ts)`; Python sort is stable). -/
def calc_bos_choch (ts : List ℤ) (h l c : List ℚ) (left right : ℕ) :
    List (ℤ × EType) :=
  bcSort (bcRun ts h l c left right).events

/-- Result of `validate_choch`. -/
inductive VResult where
  | valid
  | invalid
  | waitHold
deriving DecidableEq, Fintype

/-- `validate_choch(events, signal_ts_ms, want_sell)`: split at the signal
timestamp, check the last event before, then the first event at/after. -/
def validate_choch (events : List (ℤ × EType)) (sigTs : ℤ) (want_sell : Bool) :
    VResult :=
  let before := events.filter fun e => e.1 < sigTs
  let after := events.filter fun e => sigTs ≤ e.1
  if want_sell then
    if before.getLast?.map Prod.snd = some EType.bearChoch then .valid
    else
      match after.head? with
      | some f =>
        if f.2 = EType.bearChoch then .valid
        else if f.2 = EType.bullBos then .invalid
        else .waitHold
      | none => .waitHold
  else
    if before.getLast?.map Prod.snd = some EType.bullChoch then .valid
    else
      match after.head? with
      | some f =>
        if f.2 = EType.bullChoch then .valid
        else if f.2 = EType.bearBos then .invalid
        else .waitHold
      | none => .waitHold

/-- True range series of `calc_atr` / `calc_adx`: `h[0]-l[0]` at bar 0, then
`max(h-l, |h-prevC|, |l-prevC|)`. -/
def trAt (h l c : List ℚ) (i : ℕ) : ℚ :=
  match i with
  | 0 => colAt h 0 - colAt l 0
  | j + 1 =>
    max (colAt h (j + 1) - colAt l (j + 1))
      (max |colAt h (j + 1) - colAt c j| |colAt l (j + 1) - colAt c j|)

/-- `calc_atr(h, l, c, p) = _rma(tr, p)`. -/
def calc_atr (h l c : List ℚ) (p i : ℕ) : Option ℚ := rmaAt h.length (trAt h l c) p i

/-- Keltner upper band `_sma(c, KC_LEN) + KC_MULT * atr` (20, 2.0, ATR len 10). -/
def calc_kc_upper (h l c : List ℚ) (i : ℕ) : Option ℚ :=
  match smaAt c.length (colAt c) 20 i, calc_atr h l c 10 i with
  | some b, some a => some (b + 2 * a)
  | _, _ => none

/-- Keltner lower band `_sma(c, KC_LEN) - KC_MULT * atr`. -/
def calc_kc_lower (h l c : List ℚ) (i : ℕ) : Option ℚ :=
  match smaAt c.length (colAt c) 20 i, calc_atr h l c 10 i with
  | some b, some a => some (b - 2 * a)
  | _, _ => none

/-- TDI fast line `_sma(calc_rsi(c, 11), 2)`. -/
def tdiFm (c : List ℚ) (i : ℕ) : Option ℚ := smaAtO c.length (calc_rsi c 11) 2 i

/-- TDI slow line `_sma(calc_rsi(c, 11), 11)`. -/
def tdiSm (c : List ℚ) (i : ℕ) : Option ℚ := smaAtO c.length (calc_rsi c 11) 11 i

/-- `tdi_state(c) = (bear_tdi, bull_tdi)`: fast-vs-slow comparison on the last
bar (false on NaN, as `bool(np.nan < np.nan)` is false). -/
def tdi_state (c : List ℚ) : Bool × Bool :=
  (cmpLT2 (tdiFm c (c.length - 1)) (tdiSm c (c.length - 1)),
   cmpGT2 (tdiFm c (c.length - 1)) (tdiSm c (c.length - 1)))

/-- `+DM` series of `calc_adx` (0 at bar 0). -/
def adxDmp (h l : List ℚ) (i : ℕ) : ℚ :=
  match i with
  | 0 => 0
  | j + 1 =>
    if colAt h (j + 1) - colAt h j > colAt l j - colAt l (j + 1) then
      max (colAt h (j + 1) - colAt h j) 0
    else 0

/-- `-DM` series of `calc_adx` (0 at bar 0). -/
def adxDmm (h l : List ℚ) (i : ℕ) : ℚ :=
  match i with
  | 0 => 0
  | j + 1 =>
    if colAt l j - colAt l (j + 1) > colAt h (j + 1) - colAt h j then
      max (colAt l j - colAt l (j + 1)) 0
    else 0

/-- Smoothed true range with the `s_tr == 0 → 1e-9` guard. -/
def adxSTr (h l c : List ℚ) (p i : ℕ) : Option ℚ :=
  (rmaAt h.length (trAt h l c) p i).map fun x => if x = 0 then eps else x

/-- `DX` series of `calc_adx`: `|DI+ - DI-| / (DI+ + DI-) * 100` with guards. -/
def adxDx (h l c : List ℚ) (p i : ℕ) : Option ℚ :=
  match rmaAt h.length (adxDmp h l) p i, rmaAt h.length (adxDmm h l) p i,
      adxSTr h l c p i with
  | some sp, some sm, some st =>
    let dip := sp / st * 100
    let dim := sm / st * 100
    let denom := if dip + dim = 0 then eps else dip + dim
    some (|dip - dim| / denom * 100)
  | _, _, _ => none

/-- `calc_adx(h, l, c, p) = _sma(dx, p)` with `ADX_LEN = 14` at call sites. -/
def calc_adx (h l c : List ℚ) (p i : ℕ) : Option ℚ := smaAtO c.length (adxDx h l c p) p i

/-- One row of a raw `fetch_ohlcv` response: `[ts, open, high, low, close, vol]`
(timestamps are integral milliseconds). -/
structure PRow where
  ts : ℤ
  openP : ℚ
  high : ℚ
  low : ℚ
  close : ℚ
  vol : ℚ
deriving Inhabited, DecidableEq

/-- One candle of a fetched DataFrame (`fetch` keeps ts/high/low/close/volume
and drops the open column). -/
structure Candle where
  ts : ℤ
  high : ℚ
  low : ℚ
  close : ℚ
  volume : ℚ
deriving Inhabited, DecidableEq

/-- A fetched DataFrame: a list of candles. -/
abbrev Frame := List Candle

/-- DataFrame construction inside `fetch`. -/
def buildFrame (rows : List PRow) : Frame :=
  rows.map fun r => ⟨r.ts, r.high, r.low, r.close, r.vol⟩

/-- Per-attempt response of the data-source oracle: a raw row list or a raised
transient exception. -/
inductive FetchResp where
  | ok (rows : List PRow)
  | err

/-- Observable outcome of a fetch call: the returned value, the backoff sleeps
performed (in seconds), and the number of attempts consumed. -/
structure FetchOutcome (α : Type) where
  result : α
  sleeps : List ℚ
  attempts : ℕ
deriving DecidableEq

/-- `RETRY_ATTEMPTS = 3`. -/
def RETRY_ATTEMPTS : ℕ := 3

/-- `RETRY_BASE_DELAY = 0.5` seconds. -/
def RETRY_BASE_DELAY : ℚ := mkRat 1 2

/-- The retry loop of `fetch`, from attempt number `attempt` with the given
number of loop iterations remaining: success returns the DataFrame (empty when
the raw list is empty); a caught exception sleeps
`RETRY_BASE_DELAY * 2 ^ attempt` unless it was the final attempt; exhaustion
returns an empty DataFrame. -/
def fetchAux (resp : ℕ → FetchResp) (attempt : ℕ) : ℕ → FetchOutcome Frame
  | 0 => ⟨[], [], 0⟩
  | rem + 1 =>
    match resp attempt with
    | .ok raw => ⟨if raw = [] then [] else buildFrame raw, [], 1⟩
    | .err =>
      if rem = 0 then ⟨[], [], 1⟩
      else
        let o := fetchAux resp (attempt + 1) rem
        ⟨o.result, RETRY_BASE_DELAY * 2 ^ attempt :: o.sleeps, o.attempts + 1⟩

/-- `fetch(ex, sem, sym, tf, limit)` with the exchange modelled as a
per-attempt oracle. -/
def fetch (resp : ℕ → FetchResp) : FetchOutcome Frame := fetchAux resp 0 RETRY_ATTEMPTS

/-- The retry loop of `fetch_raw`: success returns `None` when the raw list has
fewer than 5 rows, else the raw array; exhaustion returns `None`. -/
def fetchRawAux (resp : ℕ → FetchResp) (attempt : ℕ) :
    ℕ → FetchOutcome (Option (List PRow))
  | 0 => ⟨none, [], 0⟩
  | rem + 1 =>
    match resp attempt with
    | .ok raw => ⟨if raw = [] ∨ raw.length < 5 then none else some raw, [], 1⟩
    | .err =>
      if rem = 0 then ⟨none, [], 1⟩
      else
        let o := fetchRawAux resp (attempt + 1) rem
        ⟨o.result, RETRY_BASE_DELAY * 2 ^ attempt :: o.sleeps, o.attempts + 1⟩

/-- `fetch_raw(ex, sem, sym, tf, limit)` with the exchange as an oracle. -/
def fetch_raw (resp : ℕ → FetchResp) : FetchOutcome (Option (List PRow)) :=
  fetchRawAux resp 0 RETRY_ATTEMPTS

/-- HLC3 of one raw row, as used by `stage1_worker`. -/
def hlc3Row (r : PRow) : ℚ := (r.high + r.low + r.close) / 3

/-- Negative indexing from the end: `rows[-k]`. -/
def rowFromEnd (rows : List PRow) (k : ℕ) : PRow := rows.getD (rows.length - k) default

/-- Anchor-age ceiling in 5m mode (`tdi_tf == "1h"`): 8 hours in ms. -/
def MAX_AGE_5M : ℤ := 8 * 3600 * 1000

/-- Anchor-age ceiling in 15m mode: 48 hours in ms. -/
def MAX_AGE_15M : ℤ := 48 * 3600 * 1000

/-- The Stage-1 pivot-pattern classification: `some true` (peak, short side)
when `cur_P < prev_P` and `prev_P` exceeds both earlier pivots, `some false`
(trough, long side) in the mirror case, `none` otherwise. -/
def s1Classification (rows : List PRow) : Option Bool :=
  let curP := hlc3Row (rowFromEnd rows 2)
  let prevP := hlc3Row (rowFromEnd rows 3)
  let ppP := hlc3Row (rowFromEnd rows 4)
  let pppP := hlc3Row (rowFromEnd rows 5)
  if curP < prevP ∧ prevP > max ppP pppP then some true
  else if curP > prevP ∧ prevP < min ppP pppP then some false
  else none

/-- Result tuple of `stage1_worker` (the symbol and diagnostic string are
omitted; the fetched momentum frame is passed through unchanged). -/
structure S1Result where
  wantSell : Bool
  pivotTs : ℤ
  adxPeak : ℚ
  adxEnd : ℚ
deriving DecidableEq

/-- `stage1_worker`: pivot-pattern classification on the high timeframe,
anchor-age gate, then the ADX momentum filter on a medium timeframe. The raw
pivot fetch result is `arrP` (from `fetch_raw`); `now` is `time.time()*1000`;
`tdiTfIs1h` models `tdi_tf == "1h"`; `da` is the would-be result of the
momentum `fetch`, passed as an argument because the call is I/O. The age gate
returns `None` before that fetch happens, so the result cannot depend on `da`
once the gate fails. -/
def stage1_worker (arrP : Option (List PRow)) (now : ℤ) (tdiTfIs1h : Bool)
    (da : Frame) : Option S1Result :=
  match arrP with
  | none => none
  | some rows =>
    if rows.length < 6 then none
    else
      let pivotTs := (rowFromEnd rows 2).ts
      match s1Classification rows with
      | none => none
      | some ws =>
        let maxAge := if tdiTfIs1h then MAX_AGE_5M else MAX_AGE_15M
        if now - pivotTs > maxAge then none
        else
          if da.length = 0 ∨ da.length < 28 then none   -- ADX_LEN * 2
          else
            let hs := da.map Candle.high
            let ls := da.map Candle.low
            let cs := da.map Candle.close
            let ppPts := (rowFromEnd rows 4).ts
            let piv4Ts := (rowFromEnd rows 1).ts
            let idxs := (List.range da.length).filter fun i =>
              ppPts ≤ (da.getD i default).ts ∧ (da.getD i default).ts ≤ piv4Ts
            let validW := (idxs.map fun i => calc_adx hs ls cs 14 i).filterMap id
            if validW = [] then none
            else
              let everAbove := validW.any fun x => x > 25   -- ADX_TH = 25.0
              let endVal := validW.getLast?.getD 0
              if everAbove ∧ endVal > 25 then
                some ⟨ws, pivotTs, validW.foldr max endVal, endVal⟩
              else none

/-- Result tuple of `stage2_worker` (symbol and diagnostics omitted). -/
structure S2Result where
  wantSell : Bool
  pivotTs : ℤ
deriving DecidableEq

/-- `stage2_worker`: TDI direction plus Keltner-side filter on the same
medium-timeframe frame, including the clean-approach check over the trailing
15 bars (positions `n-16 .. n-2`). -/
def stage2_worker (want_sell : Bool) (pivotTs : ℤ) (da : Frame) : Option S2Result :=
  if da.length = 0 ∨ da.length < 60 then none
  else
    let hs := da.map Candle.high
    let ls := da.map Candle.low
    let cs := da.map Candle.close
    let n := da.length
    let cT := colAt cs (n - 1)
    let s15 := n - 16
    let e15 := n - 1
    if want_sell then
      if (tdi_state cs).1 ∧ cmpGT cT (calc_kc_lower hs ls cs (n - 1)) ∧
          ((List.range (e15 - s15)).all fun k =>
            cmpGT (colAt ls (s15 + k)) (calc_kc_lower hs ls cs (s15 + k))) then
        some ⟨want_sell, pivotTs⟩
      else none
    else
      if (tdi_state cs).2 ∧ cmpLT cT (calc_kc_upper hs ls cs (n - 1)) ∧
          ((List.range (e15 - s15)).all fun k =>
            cmpLT (colAt hs (s15 + k)) (calc_kc_upper hs ls cs (s15 + k))) then
        some ⟨want_sell, pivotTs⟩
      else none

/-- Rank of a validation result (`RANK = {valid: 2, wait: 1, invalid: 0}`). -/
def statusRank : VResult → ℤ
  | .valid => 2
  | .waitHold => 1
  | .invalid => 0

/-- The newest-to-oldest best-rank scan over the Stage-3 signal timestamps,
stopping early on the first `valid`. -/
def bestStatusAux (events : List (ℤ × EType)) (ws : Bool) :
    List ℤ → ℤ → VResult → VResult
  | [], _, cur => cur
  | t :: rest, best, cur =>
    let r := validate_choch events t ws
    let best' := if statusRank r > best then statusRank r else best
    let cur' := if statusRank r > best then r else cur
    if cur' = .valid then cur'
    else bestStatusAux events ws rest best' cur'

/-- Result tuple of `stage3_worker` (symbol and diagnostic string omitted). -/
structure S3Result where
  wantSell : Bool
  pivotTs : ℤ
  status : VResult
  sigs : List ℤ
  lastSigPrice : ℚ
deriving DecidableEq

/-- `stage3_worker`: BB pullback on the mid timeframe (live candle excluded),
Final Signal on the signal timeframe, then BOS/ChoCh validation on the
structural timeframe. The three fetched frames `dm`, `ds`, `dc` are arguments
because the fetches are I/O. A too-short structural frame leaves the default
status `wait` (it does not discard); `invalid` discards. -/
def stage3_worker (dm ds dc : Frame) (want_sell : Bool) (pivotTs : ℤ) :
    Option S3Result :=
  if dm.length = 0 ∨ dm.length < 30 then none   -- BB_LEN + 10
  else
    let endI := dm.length - 1
    let cM := (dm.map Candle.close).take endI
    let hM := (dm.map Candle.high).take endI
    let lM := (dm.map Candle.low).take endI
    let bb := calc_bb_continuation cM hM lM want_sell 20 (mkRat 1 2)
    let tsM := (dm.map Candle.ts).take endI
    if ¬((List.range endI).any fun i => bb.getD i false ∧ pivotTs ≤ tsM.getD i 0) then
      none
    else
      if ds.length = 0 ∨ ds.length < 80 then none   -- min_sig
      else
        let sres := signals_tf (ds.map Candle.ts) (ds.map Candle.high)
          (ds.map Candle.low) (ds.map Candle.close) (ds.map Candle.volume)
          pivotTs want_sell
        if ¬sres.1 then none
        else
          let status :=
            if dc.length ≠ 0 ∧ 25 ≤ dc.length then   -- BOS_LR * 2 + 5
              bestStatusAux
                (calc_bos_choch (dc.map Candle.ts) (dc.map Candle.high)
                  (dc.map Candle.low) (dc.map Candle.close) 10 10)
                want_sell sres.2.reverse (-1) .waitHold
            else .waitHold
          if status = .invalid then none
          else
            let lastSig := sres.2.getLast?.getD 0
            let tsS := ds.map Candle.ts
            let sigIdx := min (searchsortedLeft tsS lastSig) (ds.length - 1)
            some ⟨want_sell, pivotTs, status, sres.2, colAt (ds.map Candle.close) sigIdx⟩

/-- Closes of the Bollinger divergence example (length 2, mult 1/2, 5 bars). -/
def bbCexC : List ℚ := [100, 10, 20, 4, 2]

/-- Highs of the Bollinger divergence example. -/
def bbCexH : List ℚ := [101, 12, 21, 5, 10]

/-- Lows of the Bollinger divergence example. -/
def bbCexL : List ℚ := [99, 9, 9, 3, 1]

/-- Closes of the short-side scenario series (band length 5, mult 1/2):
extension at bar 10, break at bar 12, first retest at bar 15, basis cross at
bar 18. -/
def bbScenC : List ℚ :=
  [100, 100, 100, 100, 100, 100, 100, 100, 100, 100,
   92, 92, 92, 88, 88, 92, 92, 92, mkRat 181 2]

/-- Highs of the scenario series (`close + 1`). -/
def bbScenH : List ℚ := bbScenC.map fun x => x + 1

/-- Lows of the scenario series (`close - 1`). -/
def bbScenL : List ℚ := bbScenC.map fun x => x - 1

/-- Mid-timeframe frame for the Stage-3 example: 31 bars, flat at 100 with a
band extension at bar 20, a break at bar 21 and a retest plus basis cross at
bar 22 (the live bar 30 is excluded by the worker). -/
def s3dm : Frame :=
  (List.range 31).map fun (i : ℕ) =>
    let cl : ℚ := if i = 20 then 99 else if i = 21 then 90 else if i = 22 then 99 else 100
    let hi : ℚ := if i = 20 then 99 else cl + 1
    ⟨100 * (Int.ofNat i + 1), hi, cl - 1, cl, 1⟩

/-- Signal-timeframe frame for the Stage-3 example: 80 bars; flat base with a
huge high at bar 35 (keeping price below the primary trailing level), a
breakdown at bar 50, a strong rally through bar 70 (driving the pressure
oscillator above 80), a volume spike from bar 65 and a secondary-swing
cross-down at bar 71 that emits the final signal. -/
def s3ds : Frame :=
  (List.range 80).map fun (i : ℕ) =>
    let cl : ℚ :=
      if i < 50 then 100
      else if i = 50 then 50
      else if i ≤ 70 then 50 + 10 * ((i : ℚ) - 50)
      else 150
    let hi : ℚ :=
      if i = 35 then 1000000
      else if i < 50 then 101
      else if i = 50 then 95
      else cl + 1
    let lo : ℚ := if i < 50 then 99 else cl - 1
    let vo : ℚ := if i < 65 then 1 else 10
    let tsv : ℤ := 1000 * (Int.ofNat i + 1)
    ⟨tsv, hi, lo, cl, vo⟩

/-- Structural-timeframe frame for the Stage-3 example: only 10 bars, fewer
than the `BOS_LR * 2 + 5 = 25` the validation block requires. -/
def s3dc : Frame :=
  (List.range 10).map fun (i : ℕ) => ⟨10 * (Int.ofNat i + 1), 2, 1, mkRat 3 2, 1⟩

/-- Timestamps of the BOS/ChoCh witness series. -/
def bosWitTs : List ℤ := [1, 2, 3, 4, 5, 6, 7, 8, 9, 10, 11, 12]

/-- Highs of the BOS/ChoCh witness series (confirmation width 1): a confirmed
high at bar 4 broken at bar 10 and a confirmed low at bar 8 broken at bar 9,
giving a bearish break then a bullish reversal. -/
def bosWitH : List ℚ := [10, 15, 11, 12, 16, 12, 11, 10, 9, 14, 20, 25]

/-- Lows of the BOS/ChoCh witness series. -/
def bosWitL : List ℚ := [5, 8, 6, 7, 9, 7, 6, 5, 4, 6, 10, 15]

/-- Closes of the BOS/ChoCh witness series. -/
def bosWitC : List ℚ := [7, 12, 8, 9, 12, 9, 8, 6, 5, 12, 17, 22]

/-- Highs of the swing witness series (lookback 2, up breakout at bar 3). -/
def swingWitH : List ℚ := [10, 11, 10, 12, 13]

/-- Lows of the swing witness series. -/
def swingWitL : List ℚ := [8, 9, 8, 10, 11]

/-- Closes of the swing witness series. -/
def swingWitC : List ℚ := [9, 10, 9, 12, 12]

/-- Raw pivot rows for the Stage-1 witness: seven rows whose last four closed
pivots form a peak pattern (HLC3 values 10, 20, 30, 12 from oldest to newest),
with the anchor pivot opening at `t = 0`. -/
def s1WitRows : List PRow :=
  [⟨-500000000, 10, 12, 8, 10, 1⟩,
   ⟨-400000000, 10, 12, 8, 10, 1⟩,
   ⟨-300000000, 10, 12, 8, 10, 1⟩,   -- ppp pivot: HLC3 = 10
   ⟨-200000000, 20, 24, 16, 20, 1⟩,  -- pp pivot: HLC3 = 20
   ⟨-100000000, 30, 36, 24, 30, 1⟩,  -- prev pivot: HLC3 = 30
   ⟨0, 12, 14, 10, 12, 1⟩,           -- anchor pivot: HLC3 = 12
   ⟨100000000, 11, 13, 9, 11, 1⟩]

def twoFailsThen (rows : List PRow) : ℕ → FetchResp :=
  fun a => if a < 2 then .err else .ok rows

/-- The matching reversal (ChoCh) tag for a trade direction. -/
def matchingReversal (ws : Bool) : EType := if ws then .bearChoch else .bullChoch

/-- The opposite-direction plain break (BOS) tag for a trade direction. -/
def oppositeBreak (ws : Bool) : EType := if ws then .bullBos else .bearBos

/-- The decision cascade of `validate_choch` as a function of the last-before
and first-after event tags. -/
def validateFrom (b a : Option EType) (ws : Bool) : VResult :=
  if b = some (matchingReversal ws) then .valid
  else
    match a with
    | some f =>
      if f = matchingReversal ws then .valid
      else if f = oppositeBreak ws then .invalid
      else .waitHold
    | none => .waitHold

/-- Invariant of the Bollinger machines: `band_broken` or `armed` imply
`rule1_met`. -/
def bbInvB (st : BBState) : Bool :=
  (!st.broken || st.rule1) && (!st.armed || st.rule1)

/-- Primary-direction series of the Final-Signal loop example: one bar of
up-trend, two of down-trend, then a flip back up (out of the sell direction). -/
def c3Dir : ℕ → Int := fun i => if i = 0 then 1 else if i ≤ 2 then -1 else 1

/-- Pressure edge only at bar 1. -/
def c3Press : ℕ → Bool := fun i => i = 1

/-- All-false series for the crossover, volume and side filters. -/
def c3Off : ℕ → Bool := fun _ => false

/-- Timestamps of the Final-Signal loop example. -/
def c3Ts : List ℤ := [1, 2, 3, 4]

/-- Alternation relation between consecutive structural events: same side means
a plain break, side change means a reversal. -/
def altOK (a b : ℤ × EType) : Prop :=
  (sideOf b.2 = sideOf a.2 → isReversal b.2 = false) ∧
  (sideOf b.2 ≠ sideOf a.2 → isReversal b.2 = true)

/-- Side of the most recently emitted event, 0 when none was emitted. -/
def lastSide (evs : List (ℤ × EType)) : Int :=
  (evs.getLast?.map fun e => sideOf e.2).getD 0

/-- Loop invariant of `calc_bos_choch` after `k` bars: events are ascending in
time, consecutive events alternate correctly, `break_type` is the side of the
last emitted event, and every event carries the timestamp of some processed
bar. -/
def bcInvariant (ts : List ℤ) (k : ℕ) (st : BCState) : Prop :=
  st.events.Pairwise (fun a b => a.1 ≤ b.1) ∧
  st.events.Chain' altOK ∧
  lastSide st.events = st.breakType ∧
  (∀ e ∈ st.events, ∃ j, j < k ∧ j < ts.length ∧ e.1 = ts.getD j 0)

theorem ewmAux_nonneg (alpha : ℚ) (f : ℕ → ℚ) (h0 : 0 ≤ alpha) (h1 : alpha ≤ 1)
    (hf : ∀ j, 0 ≤ f j) : ∀ i, 0 ≤ ewmAux alpha f i := by
  intro i
  induction i with
  | zero => exact hf 0
  | succ n ih =>
    have h2 : 0 ≤ 1 - alpha := by linarith
    have := hf (n + 1)
    have : 0 ≤ (1 - alpha) * ewmAux alpha f n := mul_nonneg h2 ih
    have : 0 ≤ alpha * f (n + 1) := mul_nonneg h0 (hf (n + 1))
    simp only [ewmAux]
    positivity

theorem rsiGain_nonneg (c : List ℚ) (i : ℕ) : 0 ≤ rsiGain c i := by
  unfold rsiGain
  split <;> [linarith; rfl]

theorem rsiLoss_nonneg (c : List ℚ) (i : ℕ) : 0 ≤ rsiLoss c i := by
  unfold rsiLoss
  split <;> [linarith; rfl]

theorem mkRat_one_nonneg (p : ℕ) : 0 ≤ mkRat 1 p := by
  rw [Rat.mkRat_eq_div]
  positivity

theorem mkRat_one_le_one (p : ℕ) : mkRat 1 p ≤ 1 := by
  rw [Rat.mkRat_eq_div]
  rcases Nat.eq_zero_or_pos p with h | h
  · simp [h]
  · rw [div_le_one (by exact_mod_cast h)]
    exact_mod_cast h

theorem rmaAt_nonneg (n : ℕ) (f : ℕ → ℚ) (p i : ℕ) (hf : ∀ j, 0 ≤ f j) (x : ℚ)
    (hx : rmaAt n f p i = some x) : 0 ≤ x := by
  unfold rmaAt at hx
  split at hx
  · simp at hx
  · have := ewmAux_nonneg (mkRat 1 p) f (mkRat_one_nonneg p) (mkRat_one_le_one p) hf i
    simp only [Option.some.injEq] at hx
    exact hx ▸ this

theorem eps_pos : 0 < eps := by decide

theorem rsiLossGuard_pos (c : List ℚ) (p : ℕ) (i : ℕ) (lg : ℚ)
    (hlg : rsiLossGuard c p i = some lg) : 0 < lg := by
  unfold rsiLossGuard at hlg
  rw [Option.map_eq_some'] at hlg
  obtain ⟨y, hy1, hy2⟩ := hlg
  have hy : 0 ≤ y := rmaAt_nonneg _ _ _ _ (rsiLoss_nonneg c) y hy1
  rw [← hy2]
  split
  · exact eps_pos
  · rename_i hne
    exact lt_of_le_of_ne hy (Ne.symm hne)

/-- C10: the zero-loss guard of `calc_rsi` is strictly positive whenever it is
defined, so the division never divides by zero, and every defined value of the
returned series lies in the closed interval from 0 to 100. -/
theorem C10_rsi_total_bounded (c : List ℚ) (p : ℕ) (_hp : 1 ≤ p) (_hc : c ≠ []) :
    (∀ i lg, rsiLossGuard c p i = some lg → 0 < lg) ∧
    (∀ i x, calc_rsi c p i = some x → 0 ≤ x ∧ x ≤ 100) := by
  refine ⟨fun i lg hlg => rsiLossGuard_pos c p i lg hlg, fun i x hx => ?_⟩
  unfold calc_rsi at hx
  cases hg : rmaAt c.length (rsiGain c) p i with
  | none => rw [hg] at hx; simp at hx
  | some g =>
    cases hl : rsiLossGuard c p i with
    | none => rw [hg, hl] at hx; simp at hx
    | some l =>
      rw [hg, hl] at hx
      simp only [Option.some.injEq] at hx
      have hg0 : 0 ≤ g := rmaAt_nonneg _ _ _ _ (rsiGain_nonneg c) g hg
      have hl0 : 0 < l := rsiLossGuard_pos c p i l hl
      have hq : 0 ≤ g / l := div_nonneg hg0 hl0.le
      have hden : (1 : ℚ) ≤ 1 + g / l := by linarith
      have hle : (100 : ℚ) / (1 + g / l) ≤ 100 := div_le_self (by norm_num) hden
      have hpos : (0 : ℚ) < 100 / (1 + g / l) := div_pos (by norm_num) (by linarith)
      constructor
      · rw [← hx]; linarith
      · rw [← hx]; linarith

/-- C10 witness: the bounds instantiated on a concrete 3-bar close series. -/
theorem C10_witness :
    (1 ≤ 2 ∧ ([1, 2, 3] : List ℚ) ≠ []) ∧
    (∀ i x, calc_rsi [1, 2, 3] 2 i = some x → 0 ≤ x ∧ x ≤ 100) :=
  ⟨⟨by decide, by decide⟩, (C10_rsi_total_bounded [1, 2, 3] 2 (by decide) (by decide)).2⟩

/-- C9: `fetch` and `fetch_raw` consult the data source at most
`RETRY_ATTEMPTS = 3` times; a run that fails twice and succeeds on the third
attempt returns exactly what a failure-free fetch returns, after backoff
sleeps of `RETRY_BASE_DELAY * 2 ^ attempt` (0.5 s then 1 s); when every
attempt fails the result degrades to an empty DataFrame (`fetch`) or `None`
(`fetch_raw`) instead of an exception. -/
theorem C9_fetch_retry_backoff :
    (∀ rows, (fetch (twoFailsThen rows)).result = (fetch fun _ => .ok rows).result ∧
      (fetch (twoFailsThen rows)).sleeps = [mkRat 1 2, 1] ∧
      (fetch (twoFailsThen rows)).attempts = 3) ∧
    (fetch fun _ => .err) = ⟨[], [mkRat 1 2, 1], 3⟩ ∧
    (∀ rows, (fetch_raw (twoFailsThen rows)).result = (fetch_raw fun _ => .ok rows).result ∧
      (fetch_raw (twoFailsThen rows)).sleeps = [mkRat 1 2, 1] ∧
      (fetch_raw (twoFailsThen rows)).attempts = 3) ∧
    (fetch_raw fun _ => .err) = ⟨none, [mkRat 1 2, 1], 3⟩ ∧
    (∀ resp, (fetch resp).attempts ≤ RETRY_ATTEMPTS ∧
      (fetch_raw resp).attempts ≤ RETRY_ATTEMPTS) := by
  refine ⟨fun rows => ⟨rfl, rfl, rfl⟩, by decide, fun rows => ⟨rfl, rfl, rfl⟩,
    by decide, fun resp => ⟨?_, ?_⟩⟩
  · cases h0 : resp 0 <;> cases h1 : resp 1 <;> cases h2 : resp 2 <;>
      simp [fetch, fetchAux, RETRY_ATTEMPTS, h0, h1, h2]
  · cases h0 : resp 0 <;> cases h1 : resp 1 <;> cases h2 : resp 2 <;>
      simp [fetch_raw, fetchRawAux, RETRY_ATTEMPTS, h0, h1, h2]

/-- C8: when the Stage-1 pivot pattern matches but the anchor pivot's age
exceeds the mode-dependent ceiling (8 hours when `tdi_tf` is 1h, else 48
hours), `stage1_worker` returns `None` for every possible momentum frame, so
the outcome is independent of the momentum fetch. -/
theorem C8_age_gate (rows : List PRow) (now : ℤ) (t1h : Bool) (ws : Bool)
    (h6 : ¬rows.length < 6)
    (hcls : s1Classification rows = some ws)
    (hage : now - (rowFromEnd rows 2).ts > (if t1h then MAX_AGE_5M else MAX_AGE_15M)) :
    ∀ da, stage1_worker (some rows) now t1h da = none := by
  intro da
  simp only [stage1_worker, if_neg h6, hcls]
  rw [if_pos hage]

/-- C8 witness: a peak pattern whose anchor age exceeds the 8-hour ceiling by
one millisecond is discarded. -/
theorem C8_witness :
    (¬s1WitRows.length < 6 ∧ s1Classification s1WitRows = some true ∧
      (28800000001 : ℤ) - (rowFromEnd s1WitRows 2).ts >
        (if true then MAX_AGE_5M else MAX_AGE_15M)) ∧
    stage1_worker (some s1WitRows) 28800000001 true [] = none :=
  ⟨⟨by decide, by decide, by decide⟩,
    C8_age_gate s1WitRows 28800000001 true true (by decide) (by decide) (by decide) []⟩

theorem validate_eq_validateFrom (events : List (ℤ × EType)) (sigTs : ℤ) (ws : Bool) :
    validate_choch events sigTs ws =
      validateFrom ((events.filter fun e => e.1 < sigTs).getLast?.map Prod.snd)
        ((events.filter fun e => sigTs ≤ e.1).head?.map Prod.snd) ws := by
  cases ws <;>
    cases hA : (events.filter fun e => sigTs ≤ e.1).head? <;>
      simp [validate_choch, validateFrom, matchingReversal, oppositeBreak, hA]

theorem validateFrom_characterization (b a : Option EType) (ws : Bool) :
    (validateFrom b a ws = .valid ↔
      (b = some (matchingReversal ws) ∨
        (b ≠ some (matchingReversal ws) ∧ a = some (matchingReversal ws)))) ∧
    (validateFrom b a ws = .invalid ↔
      (validateFrom b a ws ≠ .valid ∧ a = some (oppositeBreak ws))) := by
  revert b a ws; decide

theorem vresult_wait_iff (r : VResult) : r = .waitHold ↔ r ≠ .valid ∧ r ≠ .invalid := by
  revert r; decide

/-- C4: `validate_choch` returns valid exactly when the last event strictly
before the signal is the matching reversal, or that fails and the first event
at or after the signal is the matching reversal; it returns invalid exactly
when it is not valid and the first event at or after the signal is the
opposite-direction plain break; otherwise it waits. For events
bull reversal at 100 and bear break at 500 with a long signal at 300 it
returns valid. -/
theorem C4_validate_characterization :
    (∀ (events : List (ℤ × EType)) (sigTs : ℤ) (ws : Bool),
      (validate_choch events sigTs ws = .valid ↔
        ((events.filter fun e => e.1 < sigTs).getLast?.map Prod.snd =
            some (matchingReversal ws) ∨
          ((events.filter fun e => e.1 < sigTs).getLast?.map Prod.snd ≠
              some (matchingReversal ws) ∧
            (events.filter fun e => sigTs ≤ e.1).head?.map Prod.snd =
              some (matchingReversal ws)))) ∧
      (validate_choch events sigTs ws = .invalid ↔
        (validate_choch events sigTs ws ≠ .valid ∧
          (events.filter fun e => sigTs ≤ e.1).head?.map Prod.snd =
            some (oppositeBreak ws))) ∧
      (validate_choch events sigTs ws = .waitHold ↔
        (validate_choch events sigTs ws ≠ .valid ∧
          validate_choch events sigTs ws ≠ .invalid))) ∧
    validate_choch [(100, .bullChoch), (500, .bearBos)] 300 false = .valid := by
  refine ⟨fun events sigTs ws => ?_, by decide⟩
  have h := validateFrom_characterization
    ((events.filter fun e => e.1 < sigTs).getLast?.map Prod.snd)
    ((events.filter fun e => sigTs ≤ e.1).head?.map Prod.snd) ws
  rw [validate_eq_validateFrom]
  exact ⟨h.1, h.2, vresult_wait_iff _⟩

theorem swingAvd_eq_zero_of_lt (h l c : List ℚ) (no i : ℕ) (hlt : i < no) :
    swingAvd h l c no i = 0 := by
  have hni : ¬no ≤ i := by omega
  simp [swingAvd, swingAboveRes, swingBelowSup, hni]

theorem swingAvn_eq_zero_of_lt (h l c : List ℚ) (no : ℕ) :
    ∀ i, i < no → swingAvn h l c no i = 0 := by
  intro i
  induction i with
  | zero => intro h0; simp [swingAvn, swingAvd_eq_zero_of_lt h l c no 0 h0]
  | succ j ih =>
    intro hj
    simp only [swingAvn, swingAvd_eq_zero_of_lt h l c no (j + 1) hj]
    simpa using ih (by omega)

theorem swingAvn_mem (h l c : List ℚ) (no : ℕ) :
    ∀ i, swingAvn h l c no i = 1 ∨ swingAvn h l c no i = -1 ∨ swingAvn h l c no i = 0 := by
  have havd : ∀ i, swingAvd h l c no i = 1 ∨ swingAvd h l c no i = -1 ∨
      swingAvd h l c no i = 0 := by
    intro i
    unfold swingAvd swingAboveRes swingBelowSup
    split
    · split <;> simp_all
    · split <;> simp_all
  intro i
  induction i with
  | zero => simpa [swingAvn] using havd 0
  | succ j ih =>
    by_cases hz : swingAvd h l c no (j + 1) ≠ 0
    · simpa [swingAvn, hz] using havd (j + 1)
    · simpa [swingAvn, hz] using ih

/-- C6: the direction series of `f_swing` takes values only in 1, -1, 0; its
first `lookback` entries are 0; and at every index where the direction differs
from the previous index, the bar is itself a breakout bar: its close exceeds
the rolling high, or is below the rolling low, of the previous `lookback` bars
excluding the current bar. -/
theorem C6_swing_direction (h l c : List ℚ) (no : ℕ) (hno : 1 ≤ no) :
    (∀ i, f_swing_dir h l c no i = 1 ∨ f_swing_dir h l c no i = -1 ∨
      f_swing_dir h l c no i = 0) ∧
    (∀ i, i < no → f_swing_dir h l c no i = 0) ∧
    (∀ i, f_swing_dir h l c no i ≠ f_swing_dir h l c no (i - 1) →
      cmpGT (colAt c i) (swingRes h no (i - 1)) = true ∨
      cmpLT (colAt c i) (swingSup l no (i - 1)) = true) := by
  refine ⟨fun i => ?_, fun i hi => by simp [f_swing_dir, hi], fun i hne => ?_⟩
  · unfold f_swing_dir
    split
    · simp
    · exact swingAvn_mem h l c no i
  · by_cases hlt : i < no
    · exfalso
      apply hne
      have hlt' : i - 1 < no := by omega
      simp [f_swing_dir, hlt, hlt']
    · cases i with
      | zero => omega
      | succ j =>
        have hnj : ¬j + 1 < no := hlt
        by_cases hz : swingAvd h l c no (j + 1) = 0
        · exfalso
          apply hne
          have havn : swingAvn h l c no (j + 1) = swingAvn h l c no j := by
            simp [swingAvn, hz]
          by_cases hjn : j < no
          · have h1 : swingAvn h l c no j = 0 := swingAvn_eq_zero_of_lt h l c no j hjn
            simp [f_swing_dir, hnj, hjn, havn, h1]
          · simp [f_swing_dir, hnj, hjn, havn]
        · unfold swingAvd at hz
          by_cases hab : swingAboveRes h c no (j + 1) ≠ 0
          · left
            unfold swingAboveRes at hab
            split at hab
            · rename_i hcond
              simpa using hcond.2
            · simp at hab
          · right
            rw [if_neg hab] at hz
            unfold swingBelowSup at hz
            split at hz
            · rename_i hcond
              simpa using hcond.2
            · simp at hz

/-- C6 witness: a 5-bar series at lookback 2 with an up-breakout at bar 3. -/
theorem C6_witness :
    (1 ≤ 2) ∧
    ((List.range 5).map (f_swing_dir swingWitH swingWitL swingWitC 2) = [0, 0, 0, 1, 1]) ∧
    (∀ i, f_swing_dir swingWitH swingWitL swingWitC 2 i = 1 ∨
      f_swing_dir swingWitH swingWitL swingWitC 2 i = -1 ∨
      f_swing_dir swingWitH swingWitL swingWitC 2 i = 0) :=
  ⟨by decide, by decide, (C6_swing_direction swingWitH swingWitL swingWitC 2 (by decide)).1⟩

theorem bbCondAt_invalid (c h l : List ℚ) (ws : Bool) (len : ℕ) (m : ℚ) (i : ℕ)
    (hi : c.length ≤ i) :
    bbCondAt c h l ws len m i = ⟨false, false, false, false, false, false⟩ := by
  have hcond : ¬(len ≤ i + 1 ∧ i < c.length) := by omega
  unfold bbCondAt bbBasis smaAt
  simp [hcond]

theorem bbStepAgree :
    ∀ (st : BBState) (cond : BBCond), ¬(cond.ext = true ∧ cond.reset = true) →
      (st.armed = true → cond.brk = false) → loopStep st cond = genStep st cond := by
  decide

theorem bbRunAgree (conds : ℕ → BBCond)
    (h1 : ∀ i, ¬((conds i).ext = true ∧ (conds i).reset = true))
    (h2 : ∀ i, (bbRunAux loopStep conds i).1.armed = true → (conds i).brk = false) :
    ∀ k, bbRunAux loopStep conds k = bbRunAux genStep conds k := by
  intro k
  induction k with
  | zero => rfl
  | succ n ih =>
    have hstep : loopStep (bbRunAux loopStep conds n).1 (conds n) =
        genStep (bbRunAux loopStep conds n).1 (conds n) :=
      bbStepAgree _ _ (h1 n) (h2 n)
    simp only [bbRunAux]
    rw [← ih, hstep]

/-- C1 amended: the loop fallback and the vectorized path of
`calc_bb_continuation` produce identical emission arrays on every input on
which no bar satisfies both the extension and the reset condition, and no bar
closes beyond the band while the machine is Armed; the counterexample shows
the two paths are not identical without these restrictions. -/
theorem C1_loop_gen_agree (c h l : List ℚ) (ws : Bool) (len : ℕ) (m : ℚ)
    (h1 : ∀ i, i < c.length →
      ¬((bbCondAt c h l ws len m i).ext = true ∧ (bbCondAt c h l ws len m i).reset = true))
    (h2 : ∀ i, i < c.length →
      (bbRunAux loopStep (bbCondAt c h l ws len m) i).1.armed = true →
      (bbCondAt c h l ws len m i).brk = false) :
    calc_bb_loop c h l ws len m = calc_bb_gen c h l ws len m := by
  have h1' : ∀ i, ¬((bbCondAt c h l ws len m i).ext = true ∧
      (bbCondAt c h l ws len m i).reset = true) := by
    intro i
    by_cases hi : i < c.length
    · exact h1 i hi
    · rw [bbCondAt_invalid c h l ws len m i (by omega)]
      simp
  have h2' : ∀ i, (bbRunAux loopStep (bbCondAt c h l ws len m) i).1.armed = true →
      (bbCondAt c h l ws len m i).brk = false := by
    intro i ha
    by_cases hi : i < c.length
    · exact h2 i hi ha
    · rw [bbCondAt_invalid c h l ws len m i (by omega)]
  unfold calc_bb_loop calc_bb_gen
  rw [bbRunAgree _ h1' h2' c.length]

/-- C1 counterexample: on a concrete 5-bar series with band length 2 (so the
series is not shorter than twice the band length and `calc_bb_continuation`
takes its vectorized path), the loop fallback `_calc_bb_loop` emits a different
boolean array than `calc_bb_continuation`: while armed, a beyond-band close
makes the loop path re-enter Broken and drop the armed flag, but the vectorized
path keeps it and emits at bar 3. -/
theorem C1_counterexample :
    ¬(bbCexC.length < 2 * 2) ∧
    calc_bb_loop bbCexC bbCexH bbCexL true 2 (mkRat 1 2) ≠
      calc_bb_continuation bbCexC bbCexH bbCexL true 2 (mkRat 1 2) := by
  constructor
  · decide
  · decide

/-- C1 witness: the scenario series satisfies both restrictions, and the two
paths agree on it. -/
theorem C1_witness :
    (∀ i, i < bbScenC.length →
      ¬((bbCondAt bbScenC bbScenH bbScenL true 5 (mkRat 1 2) i).ext = true ∧
        (bbCondAt bbScenC bbScenH bbScenL true 5 (mkRat 1 2) i).reset = true)) ∧
    (∀ i, i < bbScenC.length →
      (bbRunAux loopStep (bbCondAt bbScenC bbScenH bbScenL true 5 (mkRat 1 2)) i).1.armed =
        true →
      (bbCondAt bbScenC bbScenH bbScenL true 5 (mkRat 1 2) i).brk = false) ∧
    calc_bb_loop bbScenC bbScenH bbScenL true 5 (mkRat 1 2) =
      calc_bb_gen bbScenC bbScenH bbScenL true 5 (mkRat 1 2) := by
  refine ⟨by decide, by decide, C1_loop_gen_agree _ _ _ _ _ _ (by decide) (by decide)⟩

theorem genStep_inv : ∀ (st : BBState) (cond : BBCond), bbInvB st = true →
    bbInvB (genStep st cond).1 = true := by decide

theorem bbRunAux_inv_gen (conds : ℕ → BBCond) :
    ∀ k, bbInvB (bbRunAux genStep conds k).1 = true := by
  intro k
  induction k with
  | zero => rfl
  | succ n ih =>
    simp only [bbRunAux]
    exact genStep_inv _ _ ih

theorem genStep_emit_state : ∀ (st : BBState) (cond : BBCond), bbInvB st = true →
    (genStep st cond).2 = true → cond.reset = false →
    (genStep st cond).1 = ⟨true, false, false⟩ := by decide

theorem genStep_rebreak_no_ext : ∀ cond : BBCond, cond.valid = true →
    cond.reset = false → cond.brk = true →
    ((genStep ⟨true, false, false⟩ cond).1.broken = true ∨
      (genStep ⟨true, false, false⟩ cond).2 = true) := by decide

/-- C2 amended: whenever the Bollinger-continuation detector emits at a bar
without the reset condition, the machine state right after that bar is
Extended (`rule1_met` still set, Broken and Armed cleared), not Idle; from
that state one beyond-band close alone re-enters Broken (or emits again on the
same bar) with no new extension bar; the short-side scenario (extension at bar
10, break at bar 12, retest at bar 15, basis cross at bar 18, with band length
5) emits exactly one signal, at bar 18. -/
theorem C2_emission_keeps_extended :
    (∀ (c h l : List ℚ) (ws : Bool) (len : ℕ) (m : ℚ) (i : ℕ),
      (genStep (bbRunAux genStep (bbCondAt c h l ws len m) i).1
        (bbCondAt c h l ws len m i)).2 = true →
      (bbCondAt c h l ws len m i).reset = false →
      bbGenStateAfter c h l ws len m i = ⟨true, false, false⟩) ∧
    (∀ cond : BBCond, cond.valid = true → cond.reset = false → cond.brk = true →
      ((genStep ⟨true, false, false⟩ cond).1.broken = true ∨
        (genStep ⟨true, false, false⟩ cond).2 = true)) ∧
    calc_bb_continuation bbScenC bbScenH bbScenL true 5 (mkRat 1 2) =
      [false, false, false, false, false, false, false, false, false, false,
       false, false, false, false, false, false, false, false, true] ∧
    (bbCondAt bbScenC bbScenH bbScenL true 5 (mkRat 1 2) 10).ext = true ∧
    (bbCondAt bbScenC bbScenH bbScenL true 5 (mkRat 1 2) 12).brk = true ∧
    (bbCondAt bbScenC bbScenH bbScenL true 5 (mkRat 1 2) 15).retest = true ∧
    (bbCondAt bbScenC bbScenH bbScenL true 5 (mkRat 1 2) 18).cross = true := by
  refine ⟨fun c h l ws len m i hemit hres => ?_, genStep_rebreak_no_ext,
    by decide, by decide, by decide, by decide, by decide⟩
  exact genStep_emit_state _ _ (bbRunAux_inv_gen _ i) hemit hres

/-- C2 counterexample: after the emission at bar 3 of this series the machine
emits again at bar 4 although bar 4 is not a band-extension bar, so an
emission does not reset the machine to Idle and a later beyond-band close
re-enters Broken without a new Idle-to-Extended transition. -/
theorem C2_counterexample :
    calc_bb_continuation bbCexC bbCexH bbCexL true 2 (mkRat 1 2) =
      [false, false, false, true, true] ∧
    (bbCondAt bbCexC bbCexH bbCexL true 2 (mkRat 1 2) 4).ext = false := by
  constructor
  · decide
  · decide

/-- C2 witness: the scenario's bar-18 emission leaves the machine in the
Extended state. -/
theorem C2_witness :
    ((genStep (bbRunAux genStep (bbCondAt bbScenC bbScenH bbScenL true 5 (mkRat 1 2)) 18).1
        (bbCondAt bbScenC bbScenH bbScenL true 5 (mkRat 1 2) 18)).2 = true ∧
      (bbCondAt bbScenC bbScenH bbScenL true 5 (mkRat 1 2) 18).reset = false) ∧
    bbGenStateAfter bbScenC bbScenH bbScenL true 5 (mkRat 1 2) 18 =
      ⟨true, false, false⟩ :=
  ⟨⟨by decide, by decide⟩,
    C2_emission_keeps_extended.1 bbScenC bbScenH bbScenL true 5 (mkRat 1 2) 18
      (by decide) (by decide)⟩

/-- C3 counterexample: in the Final-Signal loop, a bar where the primary
direction flips out of the trade direction (bar 3: -1 to 1 on the sell side)
does not clear the pending pointer: the pointer armed at bar 1 still holds
value 1 after the reset step of bar 3. -/
theorem C3_counterexample :
    c3Dir 3 ≠ c3Dir 2 ∧
    sigPointerAfterFlipReset (-1) c3Dir c3Press c3Off c3Off c3Off 0 c3Ts 3 = 1 := by
  constructor
  · decide
  · decide

/-- C3 amended: the pending-signal pointer of the Final-Signal loop is reset
before the emission check exactly at bars whose primary direction equals the
trade direction while the previous bar's did not (flips into the trade
direction); at such bars the pointer consumed by the emission condition is
either cleared or armed at that very bar, so no stale pointer survives a
flip-in; at every other bar, including flips out of the trade direction, the
reset step leaves the pointer unchanged. -/
theorem C3_flip_reset_rule (td : Int) (dirMain : ℕ → Int)
    (press cross vfilt side : ℕ → Bool) (wstart : ℕ) (ts : List ℤ) (i : ℕ) :
    (dirMain i = td → dirMain (i - 1) ≠ td →
      sigPointerAfterFlipReset td dirMain press cross vfilt side wstart ts i = -1 ∧
      (sigPointerAtEval td dirMain press cross vfilt side wstart ts i = -1 ∨
        sigPointerAtEval td dirMain press cross vfilt side wstart ts i = (i : Int))) ∧
    (¬(dirMain i = td ∧ dirMain (i - 1) ≠ td) →
      sigPointerAfterFlipReset td dirMain press cross vfilt side wstart ts i =
        (sigRunTo td dirMain press cross vfilt side wstart ts (i - 1)).lastP) := by
  constructor
  · intro ha hb
    have hc : dirMain i = td ∧ dirMain (i - 1) ≠ td := ⟨ha, hb⟩
    refine ⟨by simp [sigPointerAfterFlipReset, hc], ?_⟩
    unfold sigPointerAtEval
    split
    · right; rfl
    · left
      simp [sigPointerAfterFlipReset, hc]
  · intro hc
    simp [sigPointerAfterFlipReset, hc]

/-- C3 witness: at the flip-in bar 1 of the concrete loop input the reset
fires and the pointer at the emission check is the freshly armed bar 1. -/
theorem C3_witness :
    (c3Dir 1 = -1 ∧ c3Dir 0 ≠ -1) ∧
    (sigPointerAfterFlipReset (-1) c3Dir c3Press c3Off c3Off c3Off 0 c3Ts 1 = -1 ∧
      (sigPointerAtEval (-1) c3Dir c3Press c3Off c3Off c3Off 0 c3Ts 1 = -1 ∨
        sigPointerAtEval (-1) c3Dir c3Press c3Off c3Off c3Off 0 c3Ts 1 = (1 : Int))) :=
  ⟨⟨by decide, by decide⟩,
    (C3_flip_reset_rule (-1) c3Dir c3Press c3Off c3Off c3Off 0 c3Ts 1).1
      (by decide) (by decide)⟩
theorem sideOf_ne_zero (et : EType) : sideOf et = 1 ∨ sideOf et = -1 := by
  cases et <;> simp [sideOf]

theorem lastSide_nil : lastSide [] = 0 := rfl

theorem lastSide_eq_zero_iff (evs : List (ℤ × EType)) : lastSide evs = 0 ↔ evs = [] := by
  constructor
  · intro h0
    cases hL : evs.getLast? with
    | none => exact List.getLast?_eq_none_iff.mp hL
    | some e =>
      unfold lastSide at h0
      rw [hL] at h0
      simp at h0
      rcases sideOf_ne_zero e.2 with h | h <;> omega
  · intro h
    subst h
    rfl

theorem pairwise_lt_getD (ts : List ℤ) (hts : ts.Pairwise (· < ·)) (j i : ℕ)
    (hj : j < i) (hi : i < ts.length) : ts.getD j 0 < ts.getD i 0 := by
  have hjl : j < ts.length := lt_trans hj hi
  rw [List.getD_eq_getElem ts 0 hjl, List.getD_eq_getElem ts 0 hi]
  have hr := List.pairwise_iff_get.mp hts ⟨j, hjl⟩ ⟨i, hi⟩ hj
  simpa using hr

theorem bcInvariant_mono (ts : List ℤ) (k k' : ℕ) (st : BCState) (hkk : k ≤ k')
    (hinv : bcInvariant ts k st) : bcInvariant ts k' st := by
  obtain ⟨h1, h2, h3, h4⟩ := hinv
  refine ⟨h1, h2, h3, fun e he => ?_⟩
  obtain ⟨j, hj, hjl, hje⟩ := h4 e he
  exact ⟨j, lt_of_lt_of_le hj hkk, hjl, hje⟩

theorem append_event_inv (ts : List ℤ) (hts : ts.Pairwise (· < ·)) (i : ℕ)
    (hi : i < ts.length) (evs : List (ℤ × EType)) (bt s : Int) (tagC tagB : EType)
    (hsC : sideOf tagC = s) (hrC : isReversal tagC = true)
    (hsB : sideOf tagB = s) (hrB : isReversal tagB = false)
    (hp : evs.Pairwise (fun a b => a.1 ≤ b.1)) (hc : evs.Chain' altOK)
    (hlast : lastSide evs = bt)
    (hmem : ∀ e ∈ evs, ∃ j, j < i + 1 ∧ j < ts.length ∧ e.1 = ts.getD j 0) :
    (evs ++ [(ts.getD i 0, if bt = -s then tagC else tagB)]).Pairwise
      (fun a b => a.1 ≤ b.1) ∧
    (evs ++ [(ts.getD i 0, if bt = -s then tagC else tagB)]).Chain' altOK ∧
    lastSide (evs ++ [(ts.getD i 0, if bt = -s then tagC else tagB)]) = s ∧
    (∀ e ∈ evs ++ [(ts.getD i 0, if bt = -s then tagC else tagB)],
      ∃ j, j < i + 1 ∧ j < ts.length ∧ e.1 = ts.getD j 0) := by
  have hle : ∀ e ∈ evs, e.1 ≤ ts.getD i 0 := by
    intro e he
    obtain ⟨j, hj, hjl, hje⟩ := hmem e he
    rcases Nat.lt_or_ge j i with hji | hji
    · rw [hje]
      exact le_of_lt (pairwise_lt_getD ts hts j i hji hi)
    · have : j = i := by omega
      rw [hje, this]
  refine ⟨?_, ?_, ?_, ?_⟩
  · rw [List.pairwise_append]
    exact ⟨hp, List.pairwise_singleton _ _, fun a ha b hb => by
      rw [List.mem_singleton.mp hb]
      exact hle a ha⟩
  · rw [List.chain'_append]
    refine ⟨hc, List.chain'_singleton _, fun x hx y hy => ?_⟩
    rw [List.head?_cons, Option.mem_def, Option.some.injEq] at hy
    subst hy
    have hxlast : evs.getLast? = some x := hx
    have hside : sideOf x.2 = bt := by
      unfold lastSide at hlast
      rw [hxlast] at hlast
      simpa using hlast
    by_cases hbt : bt = -s
    · refine ⟨fun hsame => ?_, fun _ => by simp [hbt, hrC]⟩
      exfalso
      rw [if_pos hbt] at hsame
      rw [hsC, hside, hbt] at hsame
      rcases sideOf_ne_zero tagC with h | h <;> omega
    · refine ⟨fun _ => by simp [hbt, hrB], fun hdiff => ?_⟩
      exfalso
      rw [if_neg hbt] at hdiff
      rw [hsB, hside] at hdiff
      rcases sideOf_ne_zero x.2 with hx1 | hx1 <;> rcases sideOf_ne_zero tagC with ht1 | ht1 <;>
        (rw [hside] at hx1; rw [hsC] at ht1; omega)
  · unfold lastSide
    rw [List.getLast?_concat]
    split <;> simp [hsC, hsB]
  · intro e he
    rcases List.mem_append.mp he with h | h
    · exact hmem e h
    · rw [List.mem_singleton.mp h]
      exact ⟨i, by omega, hi, rfl⟩

theorem bcPivot_fields (h l : List ℚ) (left right : ℕ) (st : BCState) (i : ℕ) :
    (bcPivot h l left right st i).events = st.events ∧
    (bcPivot h l left right st i).breakType = st.breakType := by
  unfold bcPivot
  split
  · dsimp only
    split <;> split <;> exact ⟨rfl, rfl⟩
  · exact ⟨rfl, rfl⟩

theorem bcBreakHigh_cases (ts : List ℤ) (c : List ℚ) (st : BCState) (i : ℕ) :
    bcBreakHigh ts c st i = st ∨
    ((bcBreakHigh ts c st i).events = st.events ++
        [(ts.getD i 0, if st.breakType = -1 then EType.bullChoch else EType.bullBos)] ∧
      (bcBreakHigh ts c st i).breakType = 1) := by
  unfold bcBreakHigh
  split
  · right; exact ⟨rfl, rfl⟩
  · left; rfl

theorem bcBreakLow_cases (ts : List ℤ) (c : List ℚ) (st : BCState) (i : ℕ) :
    bcBreakLow ts c st i = st ∨
    ((bcBreakLow ts c st i).events = st.events ++
        [(ts.getD i 0, if st.breakType = 1 then EType.bearChoch else EType.bearBos)] ∧
      (bcBreakLow ts c st i).breakType = -1) := by
  unfold bcBreakLow
  split
  · right; exact ⟨rfl, rfl⟩
  · left; rfl

theorem bcStep_inv (ts : List ℤ) (h l c : List ℚ) (left right : ℕ)
    (hts : ts.Pairwise (· < ·)) (i : ℕ) (hi : i < ts.length) (st : BCState)
    (hinv : bcInvariant ts i st) :
    bcInvariant ts (i + 1) (bcStep ts h l c left right st i) := by
  have hinv1 : bcInvariant ts (i + 1) st :=
    bcInvariant_mono ts i (i + 1) st (by omega) hinv
  have hP : bcInvariant ts (i + 1) (bcPivot h l left right st i) := by
    obtain ⟨he, hb⟩ := bcPivot_fields h l left right st i
    unfold bcInvariant lastSide
    rw [he, hb]
    exact hinv1
  have hH : bcInvariant ts (i + 1) (bcBreakHigh ts c (bcPivot h l left right st i) i) := by
    rcases bcBreakHigh_cases ts c (bcPivot h l left right st i) i with hcase | ⟨he, hb⟩
    · rw [hcase]; exact hP
    · obtain ⟨h1, h2, h3, h4⟩ := hP
      have happ := append_event_inv ts hts i hi (bcPivot h l left right st i).events
        (bcPivot h l left right st i).breakType 1 EType.bullChoch EType.bullBos
        rfl rfl rfl rfl h1 h2 h3 h4
      unfold bcInvariant
      rw [he, hb]
      exact happ
  rcases bcBreakLow_cases ts c (bcBreakHigh ts c (bcPivot h l left right st i) i) i
    with hcase | ⟨he, hb⟩
  · unfold bcStep
    rw [hcase]
    exact hH
  · obtain ⟨h1, h2, h3, h4⟩ := hH
    have happ := append_event_inv ts hts i hi
      (bcBreakHigh ts c (bcPivot h l left right st i) i).events
      (bcBreakHigh ts c (bcPivot h l left right st i) i).breakType (-1)
      EType.bearChoch EType.bearBos rfl rfl rfl rfl h1 h2 h3 h4
    simp only [neg_neg] at happ
    unfold bcStep bcInvariant
    rw [he, hb]
    exact happ

theorem bcRun_inv (ts : List ℤ) (h l c : List ℚ) (left right : ℕ)
    (hts : ts.Pairwise (· < ·)) (hlen : c.length ≤ ts.length) :
    bcInvariant ts c.length (bcRun ts h l c left right) := by
  suffices hall : ∀ n, n ≤ c.length →
      bcInvariant ts n ((List.range n).foldl (bcStep ts h l c left right)
        ⟨none, true, none, true, 0, []⟩) by
    exact hall c.length le_rfl
  intro n
  induction n with
  | zero =>
    intro _
    exact ⟨List.Pairwise.nil, List.chain'_nil, rfl, fun e he => absurd he (List.not_mem_nil e)⟩
  | succ m ih =>
    intro hm
    rw [List.range_succ, List.foldl_append]
    simp only [List.foldl_cons, List.foldl_nil]
    exact bcStep_inv ts h l c left right hts m (by omega) _ (ih (by omega))

theorem bcInsert_of_le (x : ℤ × EType) (xs : List (ℤ × EType))
    (hx : ∀ y ∈ xs, x.1 ≤ y.1) : bcInsert x xs = x :: xs := by
  cases xs with
  | nil => rfl
  | cons y ys =>
    unfold bcInsert
    rw [if_neg]
    exact not_lt.mpr (hx y (List.mem_cons_self y ys))

theorem bcSort_eq_self (evs : List (ℤ × EType))
    (hp : evs.Pairwise (fun a b => a.1 ≤ b.1)) : bcSort evs = evs := by
  induction evs with
  | nil => rfl
  | cons x xs ih =>
    unfold bcSort
    rw [ih (List.Pairwise.of_cons hp)]
    exact bcInsert_of_le x xs fun y hy => List.rel_of_pairwise_cons hp hy

/-- C5: for every candle series with strictly increasing timestamps, the event
list of `calc_bos_choch` is sorted ascending by timestamp, and consecutive
events alternate correctly: a second same-side event with no opposite-side
event between them is the plain break tag, while an event immediately preceded
by an opposite-side event is the reversal tag. -/
theorem C5_structural_events (ts : List ℤ) (h l c : List ℚ) (left right : ℕ)
    (hts : ts.Pairwise (· < ·)) (hlen : c.length ≤ ts.length) :
    (calc_bos_choch ts h l c left right).Pairwise (fun a b => a.1 ≤ b.1) ∧
    (calc_bos_choch ts h l c left right).Chain' altOK := by
  have hrun := bcRun_inv ts h l c left right hts hlen
  unfold calc_bos_choch
  rw [bcSort_eq_self _ hrun.1]
  exact ⟨hrun.1, hrun.2.1⟩

/-- C5 witness: a concrete series with two events (a bearish break then a
bullish reversal) satisfying both properties. -/
theorem C5_witness :
    (bosWitTs.Pairwise (· < ·) ∧ bosWitC.length ≤ bosWitTs.length) ∧
    calc_bos_choch bosWitTs bosWitH bosWitL bosWitC 1 1 =
      [(9, EType.bearBos), (11, EType.bullChoch)] ∧
    ((calc_bos_choch bosWitTs bosWitH bosWitL bosWitC 1 1).Pairwise
        (fun a b => a.1 ≤ b.1) ∧
      (calc_bos_choch bosWitTs bosWitH bosWitL bosWitC 1 1).Chain' altOK) :=
  ⟨⟨by decide, by decide⟩, by decide,
    C5_structural_events bosWitTs bosWitH bosWitL bosWitC 1 1 (by decide) (by decide)⟩
/-- C7 amended: at Stages 1 through 3 a fetched series shorter than the stage
requirement makes the worker return `None` (an ordinary discard, never an
acceptance): the pivot fetch below 6 rows, the momentum frame below
`ADX_LEN * 2` rows, the Stage-2 frame below 60 rows, the mid frame below
`BB_LEN + 10` rows and the signal frame below 80 rows; but this does not
extend to the Stage-4 structural frame, as the counterexample shows. -/
theorem C7_short_series_discards :
    (∀ now t1h da, stage1_worker none now t1h da = none) ∧
    (∀ rows now t1h da, rows.length < 6 → stage1_worker (some rows) now t1h da = none) ∧
    (∀ arrP now t1h da, da.length < 28 → stage1_worker arrP now t1h da = none) ∧
    (∀ ws pts da, da.length < 60 → stage2_worker ws pts da = none) ∧
    (∀ dm ds dc ws pts, dm.length < 30 → stage3_worker dm ds dc ws pts = none) ∧
    (∀ dm ds dc ws pts, ds.length < 80 → stage3_worker dm ds dc ws pts = none) := by
  refine ⟨fun now t1h da => rfl, fun rows now t1h da hr => by simp [stage1_worker, hr],
    ?_, ?_, ?_, ?_⟩
  · intro arrP now t1h da hda
    have hda' : da.length = 0 ∨ da.length < 28 := Or.inr hda
    cases arrP with
    | none => rfl
    | some rows =>
      simp only [stage1_worker]
      split
      · rfl
      · cases hcls : s1Classification rows with
        | none => simp [hcls]
        | some ws =>
          simp [hcls, hda']
  · intro ws pts da hda
    unfold stage2_worker
    rw [if_pos (Or.inr hda)]
  · intro dm ds dc ws pts hdm
    unfold stage3_worker
    rw [if_pos (Or.inr hdm)]
  · intro dm ds dc ws pts hds
    have hds' : ds.length = 0 ∨ ds.length < 80 := Or.inr hds
    simp only [stage3_worker]
    split
    · rfl
    · split
      · rfl
      · simp [hds']

/-- C7 witness: the empty mid frame is discarded by `stage3_worker`. -/
theorem C7_witness :
    (([] : Frame).length < 30) ∧ stage3_worker [] [] [] true 0 = none :=
  ⟨by decide, C7_short_series_discards.2.2.2.2.1 [] [] [] true 0 (by decide)⟩

set_option maxHeartbeats 16000000 in
/-- C7 counterexample: a structural (BOS/ChoCh) frame of only 10 candles, less
than the required `BOS_LR * 2 + 5 = 25`, does not cause a discard: with
passing mid and signal frames, `stage3_worker` accepts the candidate with the
default `wait` status instead of returning `None`. -/
theorem C7_counterexample :
    s3dc.length < 25 ∧
    stage3_worker s3dm s3ds s3dc true 1 =
      some ⟨true, 1, VResult.waitHold, [72000], 150⟩ := by
  constructor
  · decide
  · decide
end V1
